import Mathlib

/-!
# Assetra cross-chain bridge: shallow embedding and verification

This file embeds the bridge contracts of the Assetra repository
(`contracts/bridge/AssetBridgeSource.sol`, `contracts/bridge/AssetBridgeDestination.sol`,
`contracts/bridge/WrappedAsset721.sol`) as executable Lean definitions and proves the
spec's claims about them.

Modelling conventions:
* `address` is modelled as `Nat` (`0` is the zero address); `bytes32` transfer ids on the
  destination side are opaque `Nat`s.
* Solidity `mapping`s are total functions with the zero default, except the
  `mapping(address => bool) approvers` inside `ApprovalState`, which is modelled as the
  list of addresses mapped to `true` (insertion happens only under a not-present guard,
  so the list is the set of approvers).
* A reverting call is `Except.error e`: no state is returned, which is exactly the
  EVM's roll-back-on-revert semantics.  `uint256` arithmetic is modelled on `Nat`;
  the contracts only add small counters onto block timestamps, far from `2^256`.
* `keccak256(abi.encode(...))` in `lockERC721Batch` is modelled by the injective
  canonical tuple itself (`TransferId` below): `abi.encode` is injective on this fixed
  argument signature and the hash is treated as collision-free.
* Emitted events are accumulated in a list, most recent first.
-/

/-- Addresses are natural numbers; `0` plays the role of `address(0)`. -/
abbrev Addr := Nat

/-- Revert reasons of the bridge contracts (each corresponds to a `require` string or
an OpenZeppelin modifier failure in the source). -/
inductive BErr where
  | enforcedPause     -- `whenNotPaused` failed
  | expectedPause     -- `_unpause` while not paused
  | missingRole       -- `onlyRole(...)` failed
  | badRecipient      -- "Bridge: bad recipient"
  | emptyBatch        -- "Bridge: empty batch"
  | alreadyProcessed  -- "Bridge: already processed"
  | alreadyApproved   -- "Bridge: already approved"
  | alreadyMinted     -- "Wrapped: already minted"
  | rateLimit         -- "Bridge: rate limit"
  | notOwner          -- ERC721 transferFrom from a non-owner
  | zeroQuorum        -- "Bridge: zero quorum"
  deriving DecidableEq, Repr

/-- Get the payload of a successful call, with a fallback for the revert case. -/
def exOk {α : Type} (e : Except BErr α) (fallback : α) : α :=
  match e with
  | .ok a => a
  | .error _ => fallback

/-- The revert reason of a failed call, `none` on success. -/
def errOf {α : Type} (e : Except BErr α) : Option BErr :=
  match e with
  | .ok _ => none
  | .error er => some er

/-- Events of `WrappedAsset721` that we track: each successful `_safeMint`. -/
inductive WEvent where
  | minted (rcpt : Addr) (tokenId : Nat)
  deriving DecidableEq, Repr

/-- State of the `WrappedAsset721` contract: the `_existsMap` mapping, the pause flag,
and the mint events. -/
structure WrappedState where
  existsMap : Nat → Bool
  paused : Bool
  events : List WEvent

/-- `WrappedAsset721.mintTo` (role check of the bridge minter elided: the bridge holds
`MINTER_ROLE` by deployment): `whenNotPaused`, then `require(!_existsMap[tokenId])`,
then mint and set the flag. -/
def WrappedState.mintTo (w : WrappedState) (rcpt : Addr) (tokenId : Nat) :
    Except BErr WrappedState :=
  if w.paused = true then .error .enforcedPause
  else if w.existsMap tokenId = true then .error .alreadyMinted
  else .ok { w with
             existsMap := fun i => if i = tokenId then true else w.existsMap i,
             events := .minted rcpt tokenId :: w.events }

/-- Result of the spec's `mintIfAbsent` operation. -/
inductive MintRes where
  | minted
  | alreadyExists
  deriving DecidableEq, Repr

/-- The `mintIfAbsent` operation as composed in `approveAndMint`:
`if (!wrapped.exists(id)) wrapped.mintTo(rcpt, id)` over one id, reporting an
`AlreadyExists` no-op success when the id is already materialized. -/
def mintIfAbsent (w : WrappedState) (rcpt : Addr) (tokenId : Nat) :
    Except BErr (WrappedState × MintRes) :=
  if w.existsMap tokenId = true then .ok (w, .alreadyExists)
  else (w.mintTo rcpt tokenId).map (fun w' => (w', .minted))

/-- The mint loop of `approveAndMint` (lines 95–99): for each token id, mint it
for `rcpt` unless it already exists. -/
def mintLoop (w : WrappedState) (rcpt : Addr) (ids : List Nat) : Except BErr WrappedState :=
  match ids with
  | [] => .ok w
  | id :: rest =>
    if w.existsMap id = true then mintLoop w rcpt rest
    else
      match w.mintTo rcpt id with
      | .error e => .error e
      | .ok w' => mintLoop w' rcpt rest

/-- Per-transfer approval bookkeeping of `AssetBridgeDestination.ApprovalState`.
The `mapping(address => bool) approvers` is the list of addresses set to `true`. -/
structure ApprovalState where
  count : Nat
  approvers : List Addr
  processed : Bool

/-- The mapping default: a fresh `ApprovalState`. -/
def ApprovalState.empty : ApprovalState := ⟨0, [], false⟩

/-- Events of `AssetBridgeDestination`. -/
inductive DEvent where
  | relayerApproved (transferId : Nat) (relayer : Addr) (newCount : Nat)
  | wrappedMinted (transferId : Nat) (rcpt : Addr) (tokenIds : List Nat)
  | requiredApprovalsUpdated (n : Nat)
  deriving DecidableEq, Repr

/-- Roles used by the destination bridge. -/
inductive Role where
  | admin
  | relayer
  deriving DecidableEq, Repr

/-- State of `AssetBridgeDestination`, together with the `WrappedAsset721` instance it
mints on. -/
structure DestState where
  destinationChainId : Nat
  requiredApprovals : Nat
  paused : Bool
  admins : Addr → Bool
  relayers : Addr → Bool
  approvals : Nat → ApprovalState
  wrapped : WrappedState
  events : List DEvent

/-- `AssetBridgeDestination.initialize`: grants the deployer the admin role and sets
the fields.  Note: no positivity check on `_requiredApprovals` here. -/
def initDest (deployer : Addr) (chainId req : Nat) : DestState :=
  { destinationChainId := chainId
    requiredApprovals := req
    paused := false
    admins := fun a => a = deployer
    relayers := fun _ => false
    approvals := fun _ => ApprovalState.empty
    wrapped := { existsMap := fun _ => false, paused := false, events := [] }
    events := [] }

/-- `AssetBridgeDestination.approveAndMint` (lines 78–103).  Guard order follows the
source: `whenNotPaused`, `onlyRole(RELAYER_ROLE)`, recipient, batch, processed,
duplicate approver.  On quorum the Solidity code mints, then sets `processed`; the
net effect of the successful call (and the all-or-nothing revert on a failing mint)
is the state built below. -/
def approveAndMint (s : DestState) (sender : Addr) (transferId : Nat) (rcpt : Addr)
    (tokenIds : List Nat) : Except BErr DestState :=
  if s.paused = true then .error .enforcedPause
  else if s.relayers sender = false then .error .missingRole
  else if rcpt = 0 then .error .badRecipient
  else if tokenIds = [] then .error .emptyBatch
  else if (s.approvals transferId).processed = true then .error .alreadyProcessed
  else if sender ∈ (s.approvals transferId).approvers then .error .alreadyApproved
  else
    let newCount := (s.approvals transferId).count + 1
    let newApprovers := sender :: (s.approvals transferId).approvers
    if s.requiredApprovals ≤ newCount then
      match mintLoop s.wrapped rcpt tokenIds with
      | .error e => .error e
      | .ok w' =>
        .ok { s with
              approvals := fun t =>
                if t = transferId then ⟨newCount, newApprovers, true⟩ else s.approvals t,
              wrapped := w',
              events := .wrappedMinted transferId rcpt tokenIds ::
                        .relayerApproved transferId sender newCount :: s.events }
    else
      .ok { s with
            approvals := fun t =>
              if t = transferId then ⟨newCount, newApprovers, false⟩ else s.approvals t,
            events := .relayerApproved transferId sender newCount :: s.events }

/-- `AssetBridgeDestination.setRequiredApprovals` (lines 63–67): admin only,
`require(_requiredApprovals > 0)`. -/
def setRequiredApprovals (s : DestState) (sender : Addr) (n : Nat) :
    Except BErr DestState :=
  if s.admins sender = false then .error .missingRole
  else if n = 0 then .error .zeroQuorum
  else .ok { s with requiredApprovals := n,
                    events := .requiredApprovalsUpdated n :: s.events }

/-- `AssetBridgeDestination.pause`: admin only; OpenZeppelin `_pause` requires
not-yet-paused. -/
def pauseDest (s : DestState) (sender : Addr) : Except BErr DestState :=
  if s.admins sender = false then .error .missingRole
  else if s.paused = true then .error .enforcedPause
  else .ok { s with paused := true }

/-- `AssetBridgeDestination.unpause`: admin only; `_unpause` requires paused. -/
def unpauseDest (s : DestState) (sender : Addr) : Except BErr DestState :=
  if s.admins sender = false then .error .missingRole
  else if s.paused = false then .error .expectedPause
  else .ok { s with paused := false }

/-- `AccessControl.grantRole` for the roles the destination bridge uses: the default
admin role administers both roles. -/
def grantRole (s : DestState) (sender : Addr) (role : Role) (account : Addr) :
    Except BErr DestState :=
  if s.admins sender = false then .error .missingRole
  else
    match role with
    | .admin => .ok { s with admins := fun a => if a = account then true else s.admins a }
    | .relayer => .ok { s with relayers := fun a => if a = account then true else s.relayers a }

/-- Post-state of a successful `approveAndMint`; the pre-state on revert. -/
def afterApprove (s : DestState) (sender : Addr) (transferId : Nat) (rcpt : Addr)
    (tokenIds : List Nat) : DestState :=
  exOk (approveAndMint s sender transferId rcpt tokenIds) s

/-- Post-state of a successful `setRequiredApprovals`; the pre-state on revert. -/
def afterSetReq (s : DestState) (sender : Addr) (n : Nat) : DestState :=
  exOk (setRequiredApprovals s sender n) s

/-- Post-state of a successful `pause`; the pre-state on revert. -/
def afterPause (s : DestState) (sender : Addr) : DestState :=
  exOk (pauseDest s sender) s

/-- Post-state of a successful `unpause`; the pre-state on revert. -/
def afterUnpause (s : DestState) (sender : Addr) : DestState :=
  exOk (unpauseDest s sender) s

/-- Post-state of a successful `grantRole`; the pre-state on revert. -/
def afterGrant (s : DestState) (sender : Addr) (role : Role) (account : Addr) : DestState :=
  exOk (grantRole s sender role account) s

/-- One successful external call on the destination bridge. -/
inductive DStep : DestState → DestState → Prop where
  | approve (s : DestState) (sender : Addr) (tid : Nat) (rcpt : Addr) (ids : List Nat)
      (h : (approveAndMint s sender tid rcpt ids).isOk = true) :
      DStep s (afterApprove s sender tid rcpt ids)
  | setReq (s : DestState) (sender : Addr) (n : Nat)
      (h : (setRequiredApprovals s sender n).isOk = true) :
      DStep s (afterSetReq s sender n)
  | pause (s : DestState) (sender : Addr) (h : (pauseDest s sender).isOk = true) :
      DStep s (afterPause s sender)
  | unpause (s : DestState) (sender : Addr) (h : (unpauseDest s sender).isOk = true) :
      DStep s (afterUnpause s sender)
  | grant (s : DestState) (sender : Addr) (role : Role) (account : Addr)
      (h : (grantRole s sender role account).isOk = true) :
      DStep s (afterGrant s sender role account)

/-- States reachable from a given initial state by successful external calls. -/
inductive DReachable (init : DestState) : DestState → Prop where
  | refl : DReachable init init
  | step {s s' : DestState} : DReachable init s → DStep s s' → DReachable init s'

/-- Is this event a `WrappedMinted` event for the given transfer id? -/
def DEvent.isMintFor (tid : Nat) : DEvent → Bool
  | .wrappedMinted t _ _ => t = tid
  | _ => false

/-- Number of `WrappedMinted` events emitted so far for a transfer id. -/
def mintEventCount (s : DestState) (tid : Nat) : Nat :=
  s.events.countP (DEvent.isMintFor tid)

/-! ## Source-side contract: `AssetBridgeSource` -/

/-- The transfer id computed by `lockERC721Batch`:
`keccak256(abi.encode(sourceChainId, destinationChainId, token, msg.sender, to,
tokenIds, currentNonce))`.  `abi.encode` is injective on this fixed signature and the
hash is modelled as collision-free, so the id is the canonical tuple itself. -/
structure TransferId where
  sourceChain : Nat
  destinationChain : Nat
  assetContract : Addr
  sender : Addr
  recipient : Addr
  assetIds : List Nat
  nonce : Nat
  deriving DecidableEq, Repr

/-- Events of `AssetBridgeSource` and of the ERC721 escrow transfers it performs. -/
inductive SEvent where
  | bridgeInitiated (transferId : TransferId) (token : Addr) (sender : Addr)
      (rcpt : Addr) (destinationChainId : Nat) (tokenIds : List Nat) (nonce : Nat)
  | rateLimitUpdated (windowSeconds maxPerWindow : Nat)
  deriving DecidableEq, Repr

/-- State of `AssetBridgeSource`, together with the ownership map of the escrowed
ERC721 contract(s) it moves tokens of.  `tokenOwner c i` is the owner of token `i`
of ERC721 contract `c`; `selfAddr` is `address(this)` of the bridge.  ERC721
operator approval for the bridge is assumed granted (the code comments "user must
approve this contract beforehand"); `transferFrom` still requires `from` to be the
current owner. -/
structure SourceState where
  sourceChainId : Nat
  windowSeconds : Nat
  maxPerWindow : Nat
  windowStart : Addr → Nat
  windowCount : Addr → Nat
  nonce : Nat
  paused : Bool
  admins : Addr → Bool
  operators : Addr → Bool
  selfAddr : Addr
  tokenOwner : Addr → Nat → Addr
  events : List SEvent
  lastTransferId : Option TransferId

/-- `AssetBridgeSource.initialize`. -/
def initSource (deployer : Addr) (chainId windowSecs maxPer selfA : Nat)
    (owners : Addr → Nat → Addr) : SourceState :=
  { sourceChainId := chainId
    windowSeconds := windowSecs
    maxPerWindow := maxPer
    windowStart := fun _ => 0
    windowCount := fun _ => 0
    nonce := 1
    paused := false
    admins := fun a => a = deployer
    operators := fun a => a = deployer
    selfAddr := selfA
    tokenOwner := owners
    events := []
    lastTransferId := none }

/-- `AssetBridgeSource._checkRateLimit` (lines 76–85): reset the caller's window when
`block.timestamp >= windowStart[user] + windowSeconds`, then
`require(windowCount[user] + amount <= maxPerWindow)` and bump the count. -/
def checkRateLimit (s : SourceState) (user : Addr) (amount now : Nat) :
    Except BErr SourceState :=
  let s1 :=
    if s.windowStart user + s.windowSeconds ≤ now then
      { s with windowStart := fun a => if a = user then now else s.windowStart a,
               windowCount := fun a => if a = user then 0 else s.windowCount a }
    else s
  if s1.windowCount user + amount ≤ s1.maxPerWindow then
    .ok { s1 with windowCount := fun a =>
            if a = user then s1.windowCount user + amount else s1.windowCount a }
  else .error .rateLimit

/-- ERC721 `transferFrom(from, to, id)` on contract `token`: requires `from` to be the
current owner, then reassigns ownership (approvals abstracted, see `SourceState`). -/
def transferFromLoop (s : SourceState) (token fromA toA : Addr) (ids : List Nat) :
    Except BErr SourceState :=
  match ids with
  | [] => .ok s
  | id :: rest =>
    if s.tokenOwner token id = fromA then
      transferFromLoop
        { s with tokenOwner := fun c i =>
            if c = token ∧ i = id then toA else s.tokenOwner c i }
        token fromA toA rest
    else .error .notOwner

/-- `AssetBridgeSource.lockERC721Batch` (lines 94–124): `whenNotPaused`, non-empty
batch, non-zero recipient, rate limit, escrow each token into the bridge, then
assign `nonce++` and compute the transfer id. -/
def lockERC721Batch (s : SourceState) (sender token : Addr) (tokenIds : List Nat)
    (rcpt : Addr) (destinationChainId now : Nat) : Except BErr SourceState :=
  if s.paused = true then .error .enforcedPause
  else if tokenIds = [] then .error .emptyBatch
  else if rcpt = 0 then .error .badRecipient
  else
    match checkRateLimit s sender tokenIds.length now with
    | .error e => .error e
    | .ok s1 =>
      match transferFromLoop s1 token sender s1.selfAddr tokenIds with
      | .error e => .error e
      | .ok s2 =>
        let currentNonce := s2.nonce
        let tid : TransferId :=
          ⟨s2.sourceChainId, destinationChainId, token, sender, rcpt, tokenIds,
           currentNonce⟩
        .ok { s2 with
              nonce := currentNonce + 1,
              lastTransferId := some tid,
              events := .bridgeInitiated tid token sender rcpt destinationChainId
                  tokenIds currentNonce :: s2.events }

/-- `AssetBridgeSource.releaseERC721Batch` (lines 129–137): operator only, transfers
each token from the bridge back out.  Note: no `whenNotPaused` modifier. -/
def releaseERC721Batch (s : SourceState) (sender token rcpt : Addr)
    (tokenIds : List Nat) : Except BErr SourceState :=
  if s.operators sender = false then .error .missingRole
  else transferFromLoop s token s.selfAddr rcpt tokenIds

/-- `AssetBridgeSource.setRateLimit`: admin only, no pause gate, no validation. -/
def setRateLimit (s : SourceState) (sender : Addr) (windowSecs maxPer : Nat) :
    Except BErr SourceState :=
  if s.admins sender = false then .error .missingRole
  else .ok { s with windowSeconds := windowSecs, maxPerWindow := maxPer,
                    events := .rateLimitUpdated windowSecs maxPer :: s.events }

/-- `AssetBridgeSource.pause`: admin only. -/
def pauseSource (s : SourceState) (sender : Addr) : Except BErr SourceState :=
  if s.admins sender = false then .error .missingRole
  else if s.paused = true then .error .enforcedPause
  else .ok { s with paused := true }

/-- Post-state of a successful `lockERC721Batch`; the pre-state on revert. -/
def afterLock (s : SourceState) (sender token : Addr) (tokenIds : List Nat)
    (rcpt : Addr) (destinationChainId now : Nat) : SourceState :=
  exOk (lockERC721Batch s sender token tokenIds rcpt destinationChainId now) s

/-- Post-state of a successful `_checkRateLimit`; the pre-state on revert. -/
def afterRateLimit (s : SourceState) (user : Addr) (amount now : Nat) : SourceState :=
  exOk (checkRateLimit s user amount now) s
/-! ## Characterization of `approveAndMint` -/

/-- Abbreviation: this attestation reaches the quorum threshold. -/
def reachesQuorum (s : DestState) (tid : Nat) : Prop :=
  s.requiredApprovals ≤ (s.approvals tid).count + 1

instance (s : DestState) (tid : Nat) : Decidable (reachesQuorum s tid) :=
  inferInstanceAs (Decidable (_ ≤ _))

/-- A successful `approveAndMint` implies every guard passed. -/
theorem approve_ok_guards (s : DestState) (sender : Addr) (tid : Nat) (rcpt : Addr)
    (ids : List Nat) (h : (approveAndMint s sender tid rcpt ids).isOk = true) :
    s.paused = false ∧ s.relayers sender = true ∧ rcpt ≠ 0 ∧ ids ≠ [] ∧
    (s.approvals tid).processed = false ∧ sender ∉ (s.approvals tid).approvers := by
  unfold approveAndMint at h
  by_cases hp : s.paused = true
  · simp [hp, Except.isOk, Except.toBool] at h
  by_cases hr : s.relayers sender = false
  · simp [hp, hr, Except.isOk, Except.toBool] at h
  by_cases hz : rcpt = 0
  · simp [hp, hr, hz, Except.isOk, Except.toBool] at h
  by_cases he : ids = []
  · simp [hp, hr, hz, he, Except.isOk, Except.toBool] at h
  by_cases hpr : (s.approvals tid).processed = true
  · simp [hp, hr, hz, he, hpr, Except.isOk, Except.toBool] at h
  by_cases hdup : sender ∈ (s.approvals tid).approvers
  · simp [hp, hr, hz, he, hpr, hdup, Except.isOk, Except.toBool] at h
  exact ⟨Bool.not_eq_true _ ▸ hp, Bool.not_eq_false _ ▸ hr, hz, he,
    Bool.not_eq_true _ ▸ hpr, hdup⟩

/-- Under passing guards, a quorum-reaching attestation whose mint loop succeeds
returns the processed state with the caller recorded and both events emitted. -/
theorem approve_eq_quorum (s : DestState) (sender : Addr) (tid : Nat) (rcpt : Addr)
    (ids : List Nat) (w' : WrappedState)
    (hp : s.paused = false) (hr : s.relayers sender = true) (hz : rcpt ≠ 0)
    (he : ids ≠ []) (hpr : (s.approvals tid).processed = false)
    (hdup : sender ∉ (s.approvals tid).approvers)
    (hq : s.requiredApprovals ≤ (s.approvals tid).count + 1)
    (hm : mintLoop s.wrapped rcpt ids = .ok w') :
    approveAndMint s sender tid rcpt ids =
      .ok { s with
            approvals := fun t =>
              if t = tid then
                ⟨(s.approvals tid).count + 1, sender :: (s.approvals tid).approvers, true⟩
              else s.approvals t,
            wrapped := w',
            events := DEvent.wrappedMinted tid rcpt ids ::
              DEvent.relayerApproved tid sender ((s.approvals tid).count + 1) ::
                s.events } := by
  unfold approveAndMint
  simp [hp, hr, hz, he, hpr, hdup, hq, hm]

/-- Under passing guards, a quorum-reaching attestation whose mint loop reverts
reverts with the same reason. -/
theorem approve_eq_quorum_err (s : DestState) (sender : Addr) (tid : Nat) (rcpt : Addr)
    (ids : List Nat) (e : BErr)
    (hp : s.paused = false) (hr : s.relayers sender = true) (hz : rcpt ≠ 0)
    (he : ids ≠ []) (hpr : (s.approvals tid).processed = false)
    (hdup : sender ∉ (s.approvals tid).approvers)
    (hq : s.requiredApprovals ≤ (s.approvals tid).count + 1)
    (hm : mintLoop s.wrapped rcpt ids = .error e) :
    approveAndMint s sender tid rcpt ids = .error e := by
  unfold approveAndMint
  simp [hp, hr, hz, he, hpr, hdup, hq, hm]

/-- Under passing guards, a below-quorum attestation records the caller, bumps the
count, emits the progress event and touches nothing else. -/
theorem approve_eq_collecting (s : DestState) (sender : Addr) (tid : Nat) (rcpt : Addr)
    (ids : List Nat)
    (hp : s.paused = false) (hr : s.relayers sender = true) (hz : rcpt ≠ 0)
    (he : ids ≠ []) (hpr : (s.approvals tid).processed = false)
    (hdup : sender ∉ (s.approvals tid).approvers)
    (hq : ¬ s.requiredApprovals ≤ (s.approvals tid).count + 1) :
    approveAndMint s sender tid rcpt ids =
      .ok { s with
            approvals := fun t =>
              if t = tid then
                ⟨(s.approvals tid).count + 1, sender :: (s.approvals tid).approvers, false⟩
              else s.approvals t,
            events := DEvent.relayerApproved tid sender ((s.approvals tid).count + 1) ::
                s.events } := by
  unfold approveAndMint
  simp [hp, hr, hz, he, hpr, hdup, hq]

/-- Consolidated post-state description of a successful `approveAndMint`. -/
theorem afterApprove_spec (s : DestState) (sender : Addr) (tid : Nat) (rcpt : Addr)
    (ids : List Nat) (h : (approveAndMint s sender tid rcpt ids).isOk = true) :
    (afterApprove s sender tid rcpt ids).requiredApprovals = s.requiredApprovals ∧
    (afterApprove s sender tid rcpt ids).relayers = s.relayers ∧
    (afterApprove s sender tid rcpt ids).admins = s.admins ∧
    (afterApprove s sender tid rcpt ids).paused = s.paused ∧
    (∀ t, (afterApprove s sender tid rcpt ids).approvals t =
        if t = tid then
          ⟨(s.approvals tid).count + 1, sender :: (s.approvals tid).approvers,
           decide (reachesQuorum s tid)⟩
        else s.approvals t) ∧
    ((afterApprove s sender tid rcpt ids).events =
        if reachesQuorum s tid then
          DEvent.wrappedMinted tid rcpt ids ::
            DEvent.relayerApproved tid sender ((s.approvals tid).count + 1) :: s.events
        else
          DEvent.relayerApproved tid sender ((s.approvals tid).count + 1) :: s.events) ∧
    (¬ reachesQuorum s tid → (afterApprove s sender tid rcpt ids).wrapped = s.wrapped) := by
  obtain ⟨hp, hr, hz, he, hpr, hdup⟩ := approve_ok_guards s sender tid rcpt ids h
  by_cases hq : s.requiredApprovals ≤ (s.approvals tid).count + 1
  · cases hm : mintLoop s.wrapped rcpt ids with
    | error e =>
      rw [approve_eq_quorum_err s sender tid rcpt ids e hp hr hz he hpr hdup hq hm] at h
      simp [Except.isOk, Except.toBool] at h
    | ok w' =>
      have heq := approve_eq_quorum s sender tid rcpt ids w' hp hr hz he hpr hdup hq hm
      unfold afterApprove
      rw [heq]
      refine ⟨rfl, rfl, rfl, rfl, ?_, ?_, ?_⟩
      · intro t
        simp [exOk, reachesQuorum, hq]
      · simp [exOk, reachesQuorum, hq]
      · intro hc
        exact absurd hq hc
  · have heq := approve_eq_collecting s sender tid rcpt ids hp hr hz he hpr hdup hq
    unfold afterApprove
    rw [heq]
    refine ⟨rfl, rfl, rfl, rfl, ?_, ?_, ?_⟩
    · intro t
      simp [exOk, reachesQuorum, hq]
    · simp [exOk, reachesQuorum, hq]
    · intro _
      rfl

/-- A quorum-reaching successful call also succeeded in its mint loop, and installs
exactly the wrapped state the loop produced. -/
theorem afterApprove_wrapped_quorum (s : DestState) (sender : Addr) (tid : Nat)
    (rcpt : Addr) (ids : List Nat)
    (h : (approveAndMint s sender tid rcpt ids).isOk = true)
    (hq : reachesQuorum s tid) :
    (mintLoop s.wrapped rcpt ids).isOk = true ∧
    (afterApprove s sender tid rcpt ids).wrapped = exOk (mintLoop s.wrapped rcpt ids) s.wrapped := by
  obtain ⟨hp, hr, hz, he, hpr, hdup⟩ := approve_ok_guards s sender tid rcpt ids h
  cases hm : mintLoop s.wrapped rcpt ids with
  | error e =>
    rw [approve_eq_quorum_err s sender tid rcpt ids e hp hr hz he hpr hdup hq hm] at h
    simp [Except.isOk, Except.toBool] at h
  | ok w' =>
    have heq := approve_eq_quorum s sender tid rcpt ids w' hp hr hz he hpr hdup hq hm
    unfold afterApprove
    rw [heq]
    exact ⟨rfl, rfl⟩

/-- Characterization of `setRequiredApprovals`: succeeds exactly for an admin caller
and a positive threshold, and then changes only the threshold and the event log. -/
theorem setReq_spec (s : DestState) (sender : Addr) (n tid : Nat) :
    ((setRequiredApprovals s sender n).isOk = true ↔ s.admins sender = true ∧ n ≠ 0) ∧
    (afterSetReq s sender n).requiredApprovals
      = (if s.admins sender = true ∧ n ≠ 0 then n else s.requiredApprovals) ∧
    (afterSetReq s sender n).approvals = s.approvals ∧
    (afterSetReq s sender n).paused = s.paused ∧
    (afterSetReq s sender n).relayers = s.relayers ∧
    (afterSetReq s sender n).admins = s.admins ∧
    (afterSetReq s sender n).wrapped = s.wrapped ∧
    (afterSetReq s sender n).events.countP (DEvent.isMintFor tid)
      = s.events.countP (DEvent.isMintFor tid) := by
  unfold afterSetReq setRequiredApprovals
  by_cases ha : s.admins sender = false
  · simp [ha, exOk, Except.isOk, Except.toBool]
  by_cases hn : n = 0
  · simp [ha, hn, exOk, Except.isOk, Except.toBool]
  simp [ha, hn, exOk, Except.isOk, Except.toBool, Bool.not_eq_false _ ▸ ha,
    mintEventCount, DEvent.isMintFor]

/-- `pause` only flips the pause flag: approvals, quorum threshold, wrapped state and
events are untouched. -/
theorem pauseDest_spec (s : DestState) (sender : Addr) :
    (afterPause s sender).approvals = s.approvals ∧
    (afterPause s sender).requiredApprovals = s.requiredApprovals ∧
    (afterPause s sender).relayers = s.relayers ∧
    (afterPause s sender).admins = s.admins ∧
    (afterPause s sender).wrapped = s.wrapped ∧
    (afterPause s sender).events = s.events := by
  unfold afterPause pauseDest
  by_cases ha : s.admins sender = false
  · simp [ha, exOk]
  by_cases hp : s.paused = true
  · simp [ha, hp, exOk]
  simp [ha, hp, exOk]

/-- `unpause` only flips the pause flag. -/
theorem unpauseDest_spec (s : DestState) (sender : Addr) :
    (afterUnpause s sender).approvals = s.approvals ∧
    (afterUnpause s sender).requiredApprovals = s.requiredApprovals ∧
    (afterUnpause s sender).relayers = s.relayers ∧
    (afterUnpause s sender).admins = s.admins ∧
    (afterUnpause s sender).wrapped = s.wrapped ∧
    (afterUnpause s sender).events = s.events := by
  unfold afterUnpause unpauseDest
  by_cases ha : s.admins sender = false
  · simp [ha, exOk]
  by_cases hp : s.paused = false
  · simp [ha, hp, exOk]
  simp [ha, hp, exOk]

/-- `grantRole` only changes role membership. -/
theorem grantRole_spec (s : DestState) (sender : Addr) (role : Role) (account : Addr) :
    (afterGrant s sender role account).approvals = s.approvals ∧
    (afterGrant s sender role account).requiredApprovals = s.requiredApprovals ∧
    (afterGrant s sender role account).paused = s.paused ∧
    (afterGrant s sender role account).wrapped = s.wrapped ∧
    (afterGrant s sender role account).events = s.events := by
  unfold afterGrant grantRole
  by_cases ha : s.admins sender = false
  · simp [ha, exOk]
  cases role with
  | admin => simp [ha, exOk]
  | relayer => simp [ha, exOk]

/-! ## The destination-side invariant -/

/-- The reachable-state invariant of the destination bridge: for every transfer id the
approver list is duplicate-free, the stored `count` is exactly the number of distinct
approvers, a not-yet-processed transfer has emitted no `WrappedMinted` event, and no
transfer ever emits more than one. -/
def DInv (s : DestState) : Prop :=
  ∀ tid : Nat,
    (s.approvals tid).approvers.Nodup ∧
    (s.approvals tid).count = (s.approvals tid).approvers.length ∧
    ((s.approvals tid).processed = false → mintEventCount s tid = 0) ∧
    mintEventCount s tid ≤ 1

/-- Fresh deployments satisfy the invariant. -/
theorem DInv_init (deployer : Addr) (chainId req : Nat) :
    DInv (initDest deployer chainId req) := by
  intro tid
  refine ⟨List.nodup_nil, rfl, fun _ => rfl, ?_⟩
  simp [mintEventCount, initDest]

/-- `DEvent.isMintFor` on each constructor. -/
theorem isMintFor_wrappedMinted (t tid : Nat) (rcpt : Addr) (ids : List Nat) :
    DEvent.isMintFor t (DEvent.wrappedMinted tid rcpt ids) = decide (tid = t) := rfl

/-- `relayerApproved` is never a mint event. -/
theorem isMintFor_relayerApproved (t tid : Nat) (relayer : Addr) (n : Nat) :
    DEvent.isMintFor t (DEvent.relayerApproved tid relayer n) = false := rfl

/-- How one successful `approveAndMint` changes each transfer's mint-event count:
plus one for the attested id exactly on quorum, unchanged everywhere else. -/
theorem approve_mintEventCount (s : DestState) (sender : Addr) (tid : Nat) (rcpt : Addr)
    (ids : List Nat) (h : (approveAndMint s sender tid rcpt ids).isOk = true) (t' : Nat) :
    mintEventCount (afterApprove s sender tid rcpt ids) t'
      = (if reachesQuorum s tid ∧ t' = tid then 1 else 0) + mintEventCount s t' := by
  obtain ⟨_, _, _, _, _, hev, _⟩ := afterApprove_spec s sender tid rcpt ids h
  unfold mintEventCount
  rw [hev]
  by_cases hq : reachesQuorum s tid
  · by_cases ht : t' = tid
    · simp [hq, ht, List.countP_cons, isMintFor_wrappedMinted, isMintFor_relayerApproved]
      omega
    · have hne : (tid = t') = False := by
        exact eq_false (fun hh => ht hh.symm)
      simp [hq, ht, List.countP_cons, isMintFor_wrappedMinted, isMintFor_relayerApproved,
        hne]
  · simp [hq, List.countP_cons, isMintFor_relayerApproved]

/-- Every successful external call preserves the invariant. -/
theorem DInv_step {s s' : DestState} (hInv : DInv s) (hs : DStep s s') : DInv s' := by
  cases hs with
  | approve sender tid rcpt ids h =>
    obtain ⟨hreq, hrel, hadm, hpau, happ, hev, hwr⟩ := afterApprove_spec s sender tid rcpt ids h
    obtain ⟨hp, hr, hz, he, hpr, hdup⟩ := approve_ok_guards s sender tid rcpt ids h
    have hevcount := approve_mintEventCount s sender tid rcpt ids h
    intro t
    by_cases ht : t = tid
    · rw [ht]
      obtain ⟨hnd, hcnt, hmz, hm1⟩ := hInv tid
      rw [happ tid, if_pos rfl, hevcount tid]
      refine ⟨List.nodup_cons.mpr ⟨hdup, hnd⟩, by simp [hcnt], ?_, ?_⟩
      · intro hproc
        have hq : ¬ reachesQuorum s tid := by
          intro hq
          rw [decide_eq_true hq] at hproc
          exact Bool.true_eq_false ▸ hproc
        simp [hq]
        exact hmz hpr
      · by_cases hq : reachesQuorum s tid
        · simp [hq, hmz hpr]
        · simp [hq]
          exact hm1
    · obtain ⟨hnd, hcnt, hmz, hm1⟩ := hInv t
      rw [happ t, if_neg ht, hevcount t]
      refine ⟨hnd, hcnt, ?_, ?_⟩
      · intro hproc
        simp [ht]
        exact hmz hproc
      · simp [ht]
        exact hm1
  | setReq sender n h =>
    intro t
    obtain ⟨_, _, happ, _, _, _, _, hev⟩ := setReq_spec s sender n t
    rw [show mintEventCount (afterSetReq s sender n) t
          = (afterSetReq s sender n).events.countP (DEvent.isMintFor t) from rfl, hev, happ]
    exact ⟨(hInv t).1, (hInv t).2.1, fun hq => (hInv t).2.2.1 hq, (hInv t).2.2.2⟩
  | pause sender h =>
    intro t
    obtain ⟨happ, _, _, _, _, hev⟩ := pauseDest_spec s sender
    rw [show mintEventCount (afterPause s sender) t
          = (afterPause s sender).events.countP (DEvent.isMintFor t) from rfl, hev, happ]
    exact ⟨(hInv t).1, (hInv t).2.1, fun hq => (hInv t).2.2.1 hq, (hInv t).2.2.2⟩
  | unpause sender h =>
    intro t
    obtain ⟨happ, _, _, _, _, hev⟩ := unpauseDest_spec s sender
    rw [show mintEventCount (afterUnpause s sender) t
          = (afterUnpause s sender).events.countP (DEvent.isMintFor t) from rfl, hev, happ]
    exact ⟨(hInv t).1, (hInv t).2.1, fun hq => (hInv t).2.2.1 hq, (hInv t).2.2.2⟩
  | grant sender role account h =>
    intro t
    obtain ⟨happ, _, _, _, hev⟩ := grantRole_spec s sender role account
    rw [show mintEventCount (afterGrant s sender role account) t
          = (afterGrant s sender role account).events.countP (DEvent.isMintFor t) from rfl,
      hev, happ]
    exact ⟨(hInv t).1, (hInv t).2.1, fun hq => (hInv t).2.2.1 hq, (hInv t).2.2.2⟩

/-- Every state reachable from a fresh deployment satisfies the invariant. -/
theorem DInv_reach {deployer : Addr} {chainId req : Nat} {s : DestState}
    (h : DReachable (initDest deployer chainId req) s) : DInv s := by
  induction h with
  | refl => exact DInv_init deployer chainId req
  | step _ hs ih =>
    exact DInv_step ih hs

/-! ## Wrapped-minter lemmas -/

/-- A successful `mintTo` sets the exists flag and prepends exactly one mint event. -/
theorem mintTo_ok_spec (w : WrappedState) (rcpt : Addr) (id : Nat) (w' : WrappedState)
    (h : w.mintTo rcpt id = .ok w') :
    w.paused = false ∧ w.existsMap id = false ∧
    (∀ i, w'.existsMap i = if i = id then true else w.existsMap i) ∧
    w'.events = .minted rcpt id :: w.events := by
  unfold WrappedState.mintTo at h
  by_cases hp : w.paused = true
  · simp [hp] at h
  by_cases he : w.existsMap id = true
  · simp [hp, he] at h
  simp only [hp, he, if_false] at h
  cases h
  exact ⟨Bool.not_eq_true _ ▸ hp, Bool.not_eq_true _ ▸ he, fun i => rfl, rfl⟩

/-- The mint loop never clears an exists flag and never drops an event. -/
theorem mintLoop_mono (rcpt : Addr) (ids : List Nat) :
    ∀ (w w' : WrappedState), mintLoop w rcpt ids = .ok w' →
      (∀ i, w.existsMap i = true → w'.existsMap i = true) ∧
      (∀ e, e ∈ w.events → e ∈ w'.events) := by
  induction ids with
  | nil =>
    intro w w' h
    cases h
    exact ⟨fun i hi => hi, fun e he => he⟩
  | cons id rest ih =>
    intro w w' h
    unfold mintLoop at h
    by_cases hex : w.existsMap id = true
    · rw [if_pos hex] at h
      exact ih w w' h
    · rw [if_neg hex] at h
      cases hm : w.mintTo rcpt id with
      | error e => rw [hm] at h; cases h
      | ok w1 =>
        rw [hm] at h
        obtain ⟨_, _, hmap, hev⟩ := mintTo_ok_spec w rcpt id w1 hm
        obtain ⟨ih1, ih2⟩ := ih w1 w' h
        constructor
        · intro i hi
          refine ih1 i ?_
          rw [hmap i]
          by_cases hii : i = id
          · simp [hii]
          · simpa [hii] using hi
        · intro e he
          refine ih2 e ?_
          rw [hev]
          exact List.mem_cons_of_mem _ he

/-- After a successful mint loop every id of the batch exists, and each id that was
absent beforehand was minted to exactly the loop's recipient. -/
theorem mintLoop_spec (rcpt : Addr) (ids : List Nat) :
    ∀ (w w' : WrappedState), mintLoop w rcpt ids = .ok w' →
      ∀ id ∈ ids, w'.existsMap id = true ∧
        (w.existsMap id = false → WEvent.minted rcpt id ∈ w'.events) := by
  induction ids with
  | nil =>
    intro w w' _ id hid
    cases hid
  | cons i rest ih =>
    intro w w' h id hid
    unfold mintLoop at h
    by_cases hex : w.existsMap i = true
    · rw [if_pos hex] at h
      rcases List.mem_cons.mp hid with hcase | hcase
      · subst hcase
        refine ⟨(mintLoop_mono rcpt rest w w' h).1 id hex, ?_⟩
        intro habs
        rw [habs] at hex
        cases hex
      · exact ih w w' h id hcase
    · rw [if_neg hex] at h
      cases hm : w.mintTo rcpt i with
      | error e => rw [hm] at h; cases h
      | ok w1 =>
        rw [hm] at h
        obtain ⟨_, _, hmap, hev⟩ := mintTo_ok_spec w rcpt i w1 hm
        rcases List.mem_cons.mp hid with hcase | hcase
        · subst hcase
          have hex1 : w1.existsMap id = true := by rw [hmap id]; simp
          refine ⟨(mintLoop_mono rcpt rest w1 w' h).1 id hex1, ?_⟩
          intro _
          refine (mintLoop_mono rcpt rest w1 w' h).2 _ ?_
          rw [hev]
          exact List.mem_cons_self _ _
        · obtain ⟨h1, h2⟩ := ih w1 w' h id hcase
          refine ⟨h1, ?_⟩
          intro habs
          by_cases hii : id = i
          · subst hii
            refine (mintLoop_mono rcpt rest w1 w' h).2 _ ?_
            rw [hev]
            exact List.mem_cons_self _ _
          · refine h2 ?_
            rw [hmap id]
            simpa [hii] using habs

/-! ## Source-side lemmas -/

/-- Full characterization of `_checkRateLimit`: the window resets exactly when a full
window has elapsed, admission is decided on the (possibly reset) count, the count is
bumped on admission, the rejection is `RateLimitExceeded`, other senders and all other
fields are untouched. -/
theorem checkRateLimit_spec (s : SourceState) (user : Addr) (amount now : Nat) :
    (((checkRateLimit s user amount now).isOk = true) ↔
      (if s.windowStart user + s.windowSeconds ≤ now then 0 else s.windowCount user)
          + amount ≤ s.maxPerWindow) ∧
    ((checkRateLimit s user amount now).isOk = false →
      checkRateLimit s user amount now = .error .rateLimit) ∧
    ((checkRateLimit s user amount now).isOk = true →
      (afterRateLimit s user amount now).windowCount user
          = (if s.windowStart user + s.windowSeconds ≤ now then 0
             else s.windowCount user) + amount ∧
      (afterRateLimit s user amount now).windowStart user
          = (if s.windowStart user + s.windowSeconds ≤ now then now
             else s.windowStart user) ∧
      (∀ u, u ≠ user →
        (afterRateLimit s user amount now).windowCount u = s.windowCount u ∧
        (afterRateLimit s user amount now).windowStart u = s.windowStart u) ∧
      (afterRateLimit s user amount now).nonce = s.nonce ∧
      (afterRateLimit s user amount now).sourceChainId = s.sourceChainId ∧
      (afterRateLimit s user amount now).windowSeconds = s.windowSeconds ∧
      (afterRateLimit s user amount now).maxPerWindow = s.maxPerWindow ∧
      (afterRateLimit s user amount now).paused = s.paused ∧
      (afterRateLimit s user amount now).selfAddr = s.selfAddr ∧
      (afterRateLimit s user amount now).tokenOwner = s.tokenOwner ∧
      (afterRateLimit s user amount now).events = s.events ∧
      (afterRateLimit s user amount now).lastTransferId = s.lastTransferId) := by
  unfold afterRateLimit checkRateLimit
  by_cases hreset : s.windowStart user + s.windowSeconds ≤ now
  · by_cases hadm : amount ≤ s.maxPerWindow
    · simp only [hreset, if_true, if_pos hreset]
      simp [hadm, exOk, Except.isOk, Except.toBool]
      intro u hu
      simp [hu]
    · simp only [hreset, if_true, if_pos hreset]
      simp [hadm, exOk, Except.isOk, Except.toBool]
  · by_cases hadm : s.windowCount user + amount ≤ s.maxPerWindow
    · simp [hreset, hadm, exOk, Except.isOk, Except.toBool]
      intro u hu
      simp [hu]
    · simp [hreset, hadm, exOk, Except.isOk, Except.toBool]

/-- Version of `checkRateLimit_spec`'s reset condition in the spec's subtraction form:
for monotone clocks (`windowStart ≤ now`) the code's `now >= start + windowSeconds`
test coincides with the spec's `now - start >= windowSeconds`. -/
theorem reset_condition_sub_form (s : SourceState) (user : Addr) (now : Nat)
    (h : s.windowStart user ≤ now) :
    (s.windowStart user + s.windowSeconds ≤ now) ↔
      (s.windowSeconds ≤ now - s.windowStart user) := by
  omega

/-- `transferFromLoop` changes only `tokenOwner`. -/
theorem transferFromLoop_preserves (token fromA toA : Addr) (ids : List Nat) :
    ∀ (s s' : SourceState), transferFromLoop s token fromA toA ids = .ok s' →
      s'.nonce = s.nonce ∧ s'.sourceChainId = s.sourceChainId ∧
      s'.windowSeconds = s.windowSeconds ∧ s'.maxPerWindow = s.maxPerWindow ∧
      s'.windowStart = s.windowStart ∧ s'.windowCount = s.windowCount ∧
      s'.paused = s.paused ∧ s'.admins = s.admins ∧ s'.operators = s.operators ∧
      s'.selfAddr = s.selfAddr ∧ s'.events = s.events ∧
      s'.lastTransferId = s.lastTransferId := by
  induction ids with
  | nil =>
    intro s s' h
    cases h
    exact ⟨rfl, rfl, rfl, rfl, rfl, rfl, rfl, rfl, rfl, rfl, rfl, rfl⟩
  | cons id rest ih =>
    intro s s' h
    unfold transferFromLoop at h
    by_cases hown : s.tokenOwner token id = fromA
    · rw [if_pos hown] at h
      have hrec := ih _ s' h
      exact hrec
    · rw [if_neg hown] at h
      cases h

/-- A successful `lockERC721Batch` assigns the pre-state's nonce to the new transfer
id, increments the stored nonce by exactly one, and records the emitted id. -/
theorem lock_ok_spec (s : SourceState) (sender token : Addr) (ids : List Nat)
    (rcpt : Addr) (dest now : Nat)
    (h : (lockERC721Batch s sender token ids rcpt dest now).isOk = true) :
    (afterLock s sender token ids rcpt dest now).nonce = s.nonce + 1 ∧
    (afterLock s sender token ids rcpt dest now).sourceChainId = s.sourceChainId ∧
    (afterLock s sender token ids rcpt dest now).lastTransferId
        = some ⟨s.sourceChainId, dest, token, sender, rcpt, ids, s.nonce⟩ := by
  unfold lockERC721Batch at h
  unfold afterLock lockERC721Batch
  by_cases hp : s.paused = true
  · simp [hp, Except.isOk, Except.toBool] at h
  by_cases he : ids = []
  · simp [hp, he, Except.isOk, Except.toBool] at h
  by_cases hz : rcpt = 0
  · simp [hp, he, hz, Except.isOk, Except.toBool] at h
  simp only [hp, he, hz, if_false] at h ⊢
  cases hrl : checkRateLimit s sender ids.length now with
  | error e => simp [hrl, Except.isOk, Except.toBool] at h
  | ok s1 =>
    simp only [hrl] at h ⊢
    cases htf : transferFromLoop s1 token sender s1.selfAddr ids with
    | error e => simp [htf, Except.isOk, Except.toBool] at h
    | ok s2 =>
      simp only [htf] at h ⊢
      have hrl1 : s1.nonce = s.nonce ∧ s1.sourceChainId = s.sourceChainId := by
        have := (checkRateLimit_spec s sender ids.length now).2.2
        rw [show afterRateLimit s sender ids.length now = s1 by
          unfold afterRateLimit; rw [hrl]; rfl] at this
        have hok : (checkRateLimit s sender ids.length now).isOk = true := by
          rw [hrl]; rfl
        exact ⟨(this hok).2.2.2.1, (this hok).2.2.2.2.1⟩
      obtain ⟨htf1, htf2, _⟩ := transferFromLoop_preserves token sender s1.selfAddr ids s1 s2 htf
      refine ⟨?_, ?_, ?_⟩
      · simp [exOk, htf1, hrl1.1]
      · simp [exOk, htf2, hrl1.2]
      · simp [exOk, htf1, htf2, hrl1.1, hrl1.2]

/-! ## Concrete deployments used in the examples -/

/-- Destination bridge freshly initialized by deployer `1` on chain `84532` with
`requiredApprovals = 2`. -/
def demo0 : DestState := initDest 1 84532 2

/-- `demo0` after the admin grants `RELAYER_ROLE` to address `10`. -/
def demo1 : DestState := afterGrant demo0 1 .relayer 10

/-- `demo1` after the admin grants `RELAYER_ROLE` to address `11`. -/
def demo2a : DestState := afterGrant demo1 1 .relayer 11

/-- `demo2a` after the admin grants `RELAYER_ROLE` to address `12`. -/
def demo2 : DestState := afterGrant demo2a 1 .relayer 12

/-- `demo2` after relayer `10` attests transfer `100` for recipient `7`, batch
`[1, 2, 3]`. -/
def demo3 : DestState := afterApprove demo2 10 100 7 [1, 2, 3]

/-- `demo3` after relayer `11` attests the same transfer: quorum is reached. -/
def demo4 : DestState := afterApprove demo3 11 100 7 [1, 2, 3]

/-- `demo2` after relayer `10` attests transfer `100` with recipient `7`, batch `[1]`. -/
def demo3b : DestState := afterApprove demo2 10 100 7 [1]

/-- `demo3b` after relayer `11` attests the same transfer with a *different* recipient
`8` and batch `[2, 3]`: quorum is still reached. -/
def demo4b : DestState := afterApprove demo3b 11 100 8 [2, 3]

/-- The demo states with granted relayers are reachable from the deployment. -/
theorem demo2_reachable : DReachable demo0 demo2 := by
  have h1 : DStep demo0 demo1 := DStep.grant demo0 1 .relayer 10 (by decide)
  have h2 : DStep demo1 demo2a := DStep.grant demo1 1 .relayer 11 (by decide)
  have h3 : DStep demo2a demo2 := DStep.grant demo2a 1 .relayer 12 (by decide)
  exact DReachable.step (DReachable.step (DReachable.step DReachable.refl h1) h2) h3

/-- The post-quorum demo state is reachable from the deployment. -/
theorem demo4_reachable : DReachable demo0 demo4 := by
  have h1 : DStep demo2 demo3 := DStep.approve demo2 10 100 7 [1, 2, 3] (by decide)
  have h2 : DStep demo3 demo4 := DStep.approve demo3 11 100 7 [1, 2, 3] (by decide)
  exact DReachable.step (DReachable.step demo2_reachable h1) h2

/-- Source bridge freshly initialized by deployer `1` on chain `11155111` with a
one-hour window of at most `10` locked assets, bridge address `900`, and every token
of every ERC721 contract owned by address `5`. -/
def src0 : SourceState := initSource 1 11155111 3600 10 900 (fun _ _ => 5)

/-- Lock a single token `k` of contract `20` from sender `5` at time `now`. -/
def srcL (s : SourceState) (k now : Nat) : SourceState := afterLock s 5 20 [k] 7 84532 now

/-- The demo source states after one to ten single-token locks at time `0`. -/
def src1 : SourceState := srcL src0 1 0
/-- See `src1`. -/
def src2 : SourceState := srcL src1 2 0
/-- See `src1`. -/
def src3 : SourceState := srcL src2 3 0
/-- See `src1`. -/
def src4 : SourceState := srcL src3 4 0
/-- See `src1`. -/
def src5 : SourceState := srcL src4 5 0
/-- See `src1`. -/
def src6 : SourceState := srcL src5 6 0
/-- See `src1`. -/
def src7 : SourceState := srcL src6 7 0
/-- See `src1`. -/
def src8 : SourceState := srcL src7 8 0
/-- See `src1`. -/
def src9 : SourceState := srcL src8 9 0
/-- See `src1`. -/
def src10 : SourceState := srcL src9 10 0

/-- A source bridge whose tokens are owned by the bridge address itself, so that the
same lock call can be repeated verbatim; used to exhibit two identical, back-to-back
successful `lockERC721Batch` calls. -/
def srcSelf : SourceState := initSource 1 11155111 3600 10 900 (fun _ _ => 900)

/-! ## Claim theorems -/

/-- **C1**: for every transferId the `Collecting → Processed` transition fires exactly
once, at the first attestation that makes `count` reach `requiredApprovals`, and that
same attestation call triggers minting of the batch: after any successful
`approveAndMint` call returns, the attested transfer never shows
`count ≥ requiredApprovals` with `processed` still `false`, the call emits the
`WrappedMinted` event exactly when the (unchanged) threshold is reached, and over all
reachable states minting is never triggered twice for one transferId.  With
`requiredApprovals = 2`, two attestations by distinct relayers reach quorum on the
second attestation and mint exactly once. -/
theorem quorum_transition_fires_once (d : Addr) (cid r₀ : Nat) (s : DestState)
    (hreach : DReachable (initDest d cid r₀) s) :
    (∀ tid, mintEventCount s tid ≤ 1) ∧
    (∀ sender tid rcpt ids, (approveAndMint s sender tid rcpt ids).isOk = true →
        ((afterApprove s sender tid rcpt ids).approvals tid).processed
            = decide (s.requiredApprovals ≤ (s.approvals tid).count + 1) ∧
        (afterApprove s sender tid rcpt ids).requiredApprovals = s.requiredApprovals ∧
        (s.requiredApprovals ≤ ((afterApprove s sender tid rcpt ids).approvals tid).count →
            ((afterApprove s sender tid rcpt ids).approvals tid).processed = true) ∧
        mintEventCount (afterApprove s sender tid rcpt ids) tid
            = mintEventCount s tid
              + (if s.requiredApprovals ≤ (s.approvals tid).count + 1 then 1 else 0) ∧
        mintEventCount (afterApprove s sender tid rcpt ids) tid ≤ 1) ∧
    ((approveAndMint demo2 10 100 7 [1, 2, 3]).isOk = true ∧
     (demo3.approvals 100).processed = false ∧ mintEventCount demo3 100 = 0 ∧
     (approveAndMint demo3 11 100 7 [1, 2, 3]).isOk = true ∧
     (demo4.approvals 100).processed = true ∧ mintEventCount demo4 100 = 1) := by
  have hInv := DInv_reach hreach
  refine ⟨fun tid => (hInv tid).2.2.2, ?_, by decide⟩
  intro sender tid rcpt ids h
  have hstep : DStep s (afterApprove s sender tid rcpt ids) :=
    DStep.approve s sender tid rcpt ids h
  have hInv' := DInv_step hInv hstep
  obtain ⟨hreq, _, _, _, happ, _, _⟩ := afterApprove_spec s sender tid rcpt ids h
  have hcount := approve_mintEventCount s sender tid rcpt ids h tid
  refine ⟨?_, hreq, ?_, ?_, (hInv' tid).2.2.2⟩
  · rw [happ tid, if_pos rfl]
    rfl
  · intro hge
    rw [happ tid, if_pos rfl] at hge ⊢
    exact decide_eq_true hge
  · have hiff : (reachesQuorum s tid ∧ tid = tid)
        ↔ (s.requiredApprovals ≤ (s.approvals tid).count + 1) := by
      simp [reachesQuorum]
    rw [hcount, if_congr hiff rfl rfl]
    exact Nat.add_comm _ _

/-- Witness for `quorum_transition_fires_once` at the concrete post-quorum demo
state. -/
theorem quorum_transition_fires_once_witness : mintEventCount demo4 100 ≤ 1 :=
  (quorum_transition_fires_once 1 84532 2 demo4 demo4_reachable).1 100

/-- **C2**: the `processed` flag is monotonic `false → true` and terminal.  Once it is
`true`, no attestation for that transferId ever succeeds; a well-formed attestation is
rejected with the explicit `AlreadyProcessed` error (and, by the revert semantics of
`Except.error`, mutates nothing); and every successful call on the contract leaves the
transfer's approval state and its mint-event count unchanged, so minting occurs at
most once per transferId regardless of how many attestations arrive afterwards. -/
theorem processed_is_terminal (s : DestState) (tid : Nat)
    (hproc : (s.approvals tid).processed = true) :
    (∀ sender rcpt ids, (approveAndMint s sender tid rcpt ids).isOk = false) ∧
    (∀ sender rcpt ids, s.paused = false → s.relayers sender = true → rcpt ≠ 0 →
        ids ≠ [] → approveAndMint s sender tid rcpt ids = .error .alreadyProcessed) ∧
    (∀ s', DStep s s' → (s'.approvals tid).processed = true ∧
        (s'.approvals tid).count = (s.approvals tid).count ∧
        (s'.approvals tid).approvers = (s.approvals tid).approvers ∧
        mintEventCount s' tid = mintEventCount s tid) := by
  refine ⟨?_, ?_, ?_⟩
  · intro sender rcpt ids
    by_contra hok
    rw [Bool.not_eq_false] at hok
    have hpr := (approve_ok_guards s sender tid rcpt ids hok).2.2.2.2.1
    rw [hproc] at hpr
    cases hpr
  · intro sender rcpt ids hp hr hz he
    unfold approveAndMint
    simp [hp, hr, hz, he, hproc]
  · intro s' hstep
    cases hstep with
    | approve sender tid' rcpt ids h =>
      obtain ⟨_, _, _, _, happ, _, _⟩ := afterApprove_spec s sender tid' rcpt ids h
      obtain ⟨_, _, _, _, hpr', _⟩ := approve_ok_guards s sender tid' rcpt ids h
      have hne : tid ≠ tid' := by
        intro hEq
        rw [hEq] at hproc
        rw [hproc] at hpr'
        cases hpr'
      have hcount := approve_mintEventCount s sender tid' rcpt ids h tid
      rw [happ tid, if_neg hne, hcount]
      refine ⟨hproc, rfl, rfl, ?_⟩
      simp [hne]
    | setReq sender n h =>
      obtain ⟨_, _, happ, _, _, _, _, hev⟩ := setReq_spec s sender n tid
      rw [happ]
      exact ⟨hproc, rfl, rfl, hev⟩
    | pause sender h =>
      obtain ⟨happ, _, _, _, _, hev⟩ := pauseDest_spec s sender
      rw [happ]
      refine ⟨hproc, rfl, rfl, ?_⟩
      unfold mintEventCount
      rw [hev]
    | unpause sender h =>
      obtain ⟨happ, _, _, _, _, hev⟩ := unpauseDest_spec s sender
      rw [happ]
      refine ⟨hproc, rfl, rfl, ?_⟩
      unfold mintEventCount
      rw [hev]
    | grant sender role account h =>
      obtain ⟨happ, _, _, _, hev⟩ := grantRole_spec s sender role account
      rw [happ]
      refine ⟨hproc, rfl, rfl, ?_⟩
      unfold mintEventCount
      rw [hev]

/-- Witness for `processed_is_terminal`: the third attestation on the processed demo
transfer is rejected as `AlreadyProcessed`. -/
theorem processed_is_terminal_witness :
    approveAndMint demo4 12 100 7 [1, 2, 3] = .error .alreadyProcessed :=
  (processed_is_terminal demo4 100 (by decide)).2.1 12 7 [1, 2, 3]
    (by decide) (by decide) (by decide) (by decide)

/-- **C3**: a second attestation by the same relayer for a not-yet-processed
transferId never succeeds; when the call is otherwise well-formed it is rejected with
the explicit `DuplicateAttestation` (`"Bridge: already approved"`) error and, by
revert semantics, increments nothing.  In every reachable state the relayer occurs
exactly once in the approver set, and the count equals the number of distinct
approvers, so one relayer never contributes more than 1 to a transfer's count. -/
theorem duplicate_attestation_rejected (s : DestState) (sender : Addr) (tid : Nat)
    (hdup : sender ∈ (s.approvals tid).approvers)
    (hproc : (s.approvals tid).processed = false) :
    (∀ rcpt ids, (approveAndMint s sender tid rcpt ids).isOk = false) ∧
    (∀ rcpt ids, s.paused = false → s.relayers sender = true → rcpt ≠ 0 → ids ≠ [] →
        approveAndMint s sender tid rcpt ids = .error .alreadyApproved) ∧
    (∀ d cid r₀, DReachable (initDest d cid r₀) s →
        List.count sender (s.approvals tid).approvers = 1 ∧
        (s.approvals tid).count = (s.approvals tid).approvers.length) := by
  refine ⟨?_, ?_, ?_⟩
  · intro rcpt ids
    by_contra hok
    rw [Bool.not_eq_false] at hok
    exact (approve_ok_guards s sender tid rcpt ids hok).2.2.2.2.2 hdup
  · intro rcpt ids hp hr hz he
    unfold approveAndMint
    simp [hp, hr, hz, he, hproc, hdup]
  · intro d cid r₀ hreach
    have hInv := DInv_reach hreach
    exact ⟨List.count_eq_one_of_mem (hInv tid).1 hdup, (hInv tid).2.1⟩

/-- Witness for `duplicate_attestation_rejected`: relayer `10` attesting transfer
`100` a second time before quorum is rejected as a duplicate. -/
theorem duplicate_attestation_rejected_witness :
    approveAndMint demo3 10 100 7 [9] = .error .alreadyApproved :=
  (duplicate_attestation_rejected demo3 10 100 (by decide) (by decide)).2.1 7 [9]
    (by decide) (by decide) (by decide) (by decide)

/-- **C10** (implicit): in every reachable destination state, every transfer's stored
`count` equals the number of distinct relayers in its approver set (which is
duplicate-free); both the count and the approver set only grow under any successful
call; and each successful attestation adds exactly the calling relayer and increments
the count by exactly one. -/
theorem count_equals_distinct_approvers (d : Addr) (cid r₀ : Nat) (s : DestState)
    (hreach : DReachable (initDest d cid r₀) s) :
    (∀ tid, (s.approvals tid).approvers.Nodup ∧
        (s.approvals tid).count = (s.approvals tid).approvers.length) ∧
    (∀ s', DStep s s' → ∀ tid,
        (s.approvals tid).count ≤ (s'.approvals tid).count ∧
        (∀ a, a ∈ (s.approvals tid).approvers → a ∈ (s'.approvals tid).approvers)) ∧
    (∀ sender tid rcpt ids, (approveAndMint s sender tid rcpt ids).isOk = true →
        sender ∉ (s.approvals tid).approvers ∧
        ((afterApprove s sender tid rcpt ids).approvals tid).count
            = (s.approvals tid).count + 1 ∧
        ((afterApprove s sender tid rcpt ids).approvals tid).approvers
            = sender :: (s.approvals tid).approvers) := by
  have hInv := DInv_reach hreach
  refine ⟨fun tid => ⟨(hInv tid).1, (hInv tid).2.1⟩, ?_, ?_⟩
  · intro s' hstep tid
    cases hstep with
    | approve sender tid' rcpt ids h =>
      obtain ⟨_, _, _, _, happ, _, _⟩ := afterApprove_spec s sender tid' rcpt ids h
      rw [happ tid]
      by_cases ht : tid = tid'
      · subst ht
        rw [if_pos rfl]
        exact ⟨Nat.le_succ _, fun a ha => List.mem_cons_of_mem _ ha⟩
      · rw [if_neg ht]
        exact ⟨le_refl _, fun a ha => ha⟩
    | setReq sender n h =>
      obtain ⟨_, _, happ, _, _, _, _, _⟩ := setReq_spec s sender n tid
      rw [happ]
      exact ⟨le_refl _, fun a ha => ha⟩
    | pause sender h =>
      obtain ⟨happ, _, _, _, _, _⟩ := pauseDest_spec s sender
      rw [happ]
      exact ⟨le_refl _, fun a ha => ha⟩
    | unpause sender h =>
      obtain ⟨happ, _, _, _, _, _⟩ := unpauseDest_spec s sender
      rw [happ]
      exact ⟨le_refl _, fun a ha => ha⟩
    | grant sender role account h =>
      obtain ⟨happ, _, _, _, _⟩ := grantRole_spec s sender role account
      rw [happ]
      exact ⟨le_refl _, fun a ha => ha⟩
  · intro sender tid rcpt ids h
    obtain ⟨_, _, _, _, _, hdup⟩ := approve_ok_guards s sender tid rcpt ids h
    obtain ⟨_, _, _, _, happ, _, _⟩ := afterApprove_spec s sender tid rcpt ids h
    rw [happ tid, if_pos rfl]
    exact ⟨hdup, rfl, rfl⟩

/-- Witness for `count_equals_distinct_approvers` at the post-quorum demo state. -/
theorem count_equals_distinct_approvers_witness :
    (demo4.approvals 100).approvers.Nodup ∧
    (demo4.approvals 100).count = (demo4.approvals 100).approvers.length :=
  (count_equals_distinct_approvers 1 84532 2 demo4 demo4_reachable).1 100

/-- **C9** (implicit): the recipient and token-id list actually minted at quorum are
exactly the `(to, tokenIds)` arguments of the single attestation call that reaches
quorum (they land verbatim in the `WrappedMinted` event and the per-token mints go to
that recipient); the approval state stores only the count and approver set, so a
below-quorum attestation produces a post-state that is *identical* for any valid
recipient/batch arguments; and distinct relayers attesting the same transferId with
different recipients and batches still accumulate toward one quorum. -/
theorem minted_batch_is_quorum_call_args (s : DestState) (sender : Addr) (tid : Nat)
    (rcpt : Addr) (ids : List Nat)
    (h : (approveAndMint s sender tid rcpt ids).isOk = true) :
    (reachesQuorum s tid →
        (afterApprove s sender tid rcpt ids).events
            = DEvent.wrappedMinted tid rcpt ids ::
              DEvent.relayerApproved tid sender ((s.approvals tid).count + 1) ::
                s.events ∧
        (∀ id ∈ ids, (afterApprove s sender tid rcpt ids).wrapped.existsMap id = true ∧
            (s.wrapped.existsMap id = false →
                WEvent.minted rcpt id ∈ (afterApprove s sender tid rcpt ids).wrapped.events))) ∧
    (¬ reachesQuorum s tid → ∀ rcpt' ids', rcpt' ≠ 0 → ids' ≠ [] →
        approveAndMint s sender tid rcpt' ids' = approveAndMint s sender tid rcpt ids) ∧
    ((approveAndMint demo3b 11 100 8 [2, 3]).isOk = true ∧
     demo4b.events.head? = some (.wrappedMinted 100 8 [2, 3]) ∧
     (demo4b.approvals 100).processed = true ∧
     demo4b.wrapped.existsMap 2 = true ∧ demo4b.wrapped.existsMap 3 = true) := by
  obtain ⟨hp, hr, hz, he, hpr, hdup⟩ := approve_ok_guards s sender tid rcpt ids h
  refine ⟨?_, ?_, by decide⟩
  · intro hq
    obtain ⟨_, _, _, _, _, hev, _⟩ := afterApprove_spec s sender tid rcpt ids h
    obtain ⟨hmOk, hwr⟩ := afterApprove_wrapped_quorum s sender tid rcpt ids h hq
    rw [hev, if_pos hq]
    refine ⟨rfl, ?_⟩
    cases hm : mintLoop s.wrapped rcpt ids with
    | error e => rw [hm] at hmOk; cases hmOk
    | ok w' =>
      rw [hwr, hm]
      intro id hid
      exact mintLoop_spec rcpt ids s.wrapped w' hm id hid
  · intro hq rcpt' ids' hz' he'
    rw [approve_eq_collecting s sender tid rcpt ids hp hr hz he hpr hdup hq,
        approve_eq_collecting s sender tid rcpt' ids' hp hr hz' he' hpr hdup hq]

/-- Witness for `minted_batch_is_quorum_call_args`: below quorum, the recipient and
batch arguments leave no trace in the state. -/
theorem minted_batch_is_quorum_call_args_witness :
    approveAndMint demo2 10 100 9 [4] = approveAndMint demo2 10 100 7 [1] :=
  (minted_batch_is_quorum_call_args demo2 10 100 7 [1] (by decide)).2.1
    (by decide) 9 [4] (by decide) (by decide)

/-- **C6**: `mintIfAbsent` is idempotent per assetId: a successful call leaves the id
materialized; calling it again for the same id is a no-op success reported as
`AlreadyExists` that returns the state unchanged (in particular no second mint event);
if the id already existed the first call was already such a no-op, and if it was
absent the call minted it once, emitting exactly one mint event to the requested
recipient. -/
theorem mintIfAbsent_idempotent (w : WrappedState) (rcpt rcpt' : Addr) (id : Nat)
    (h : (mintIfAbsent w rcpt id).isOk = true) :
    (exOk (mintIfAbsent w rcpt id) (w, .alreadyExists)).1.existsMap id = true ∧
    mintIfAbsent (exOk (mintIfAbsent w rcpt id) (w, .alreadyExists)).1 rcpt' id
        = .ok ((exOk (mintIfAbsent w rcpt id) (w, .alreadyExists)).1, .alreadyExists) ∧
    (w.existsMap id = true → mintIfAbsent w rcpt id = .ok (w, .alreadyExists)) ∧
    (w.existsMap id = false →
        (exOk (mintIfAbsent w rcpt id) (w, .alreadyExists)).2 = .minted ∧
        (exOk (mintIfAbsent w rcpt id) (w, .alreadyExists)).1.events
            = .minted rcpt id :: w.events) := by
  by_cases hex : w.existsMap id = true
  · have hcall : mintIfAbsent w rcpt id = .ok (w, .alreadyExists) := by
      unfold mintIfAbsent
      rw [if_pos hex]
    rw [hcall]
    refine ⟨hex, ?_, fun _ => rfl, ?_⟩
    · unfold mintIfAbsent
      simp [exOk, hex]
    · intro habs
      rw [habs] at hex
      cases hex
  · cases hp : w.paused with
    | true =>
      have hcall : mintIfAbsent w rcpt id = .error .enforcedPause := by
        unfold mintIfAbsent WrappedState.mintTo
        simp [hex, hp, Except.map]
      rw [hcall] at h
      cases h
    | false =>
      have hcall : mintIfAbsent w rcpt id
          = .ok ({ existsMap := fun i => if i = id then true else w.existsMap i,
                   paused := w.paused,
                   events := .minted rcpt id :: w.events }, .minted) := by
        unfold mintIfAbsent WrappedState.mintTo
        simp [hex, hp, Except.map]
      rw [hcall]
      refine ⟨by simp [exOk], ?_, ?_, ?_⟩
      · unfold mintIfAbsent
        simp [exOk]
      · intro hx
        rw [hx] at hex
        cases hex rfl
      · intro _
        exact ⟨rfl, rfl⟩

/-- Witness for `mintIfAbsent_idempotent` on a fresh wrapped contract. -/
theorem mintIfAbsent_idempotent_witness :
    (exOk (mintIfAbsent demo0.wrapped 7 5) (demo0.wrapped, .alreadyExists)).1.existsMap 5
      = true :=
  (mintIfAbsent_idempotent demo0.wrapped 7 8 5 (by decide)).1

/-- Post-state of a successful source-side `pause`; the pre-state on revert. -/
def afterPauseSrc (s : SourceState) (sender : Addr) : SourceState :=
  exOk (pauseSource s sender) s

/-- **C4**: the rate limiter resets the caller's window (`windowStart := now`,
`windowCount := 0`) exactly when `now - windowStart ≥ windowSeconds` (for a monotone
clock this is the code's `now ≥ windowStart + windowSeconds`), admits iff the
post-reset `windowCount + requestedCount ≤ maxPerWindow`, adds `requestedCount` on
admission, and rejects with `RateLimitExceeded` (reverting, hence leaving the window
unchanged) otherwise.  Scenario: with `windowSeconds = 3600`, `maxPerWindow = 10`,
ten size-1 locks succeed, the eleventh fails with the rate-limit error, and after
advancing time by 3601 seconds a size-10 lock succeeds. -/
theorem rate_limiter_window (s : SourceState) (user : Addr) (amount now : Nat)
    (hmono : s.windowStart user ≤ now) :
    (((checkRateLimit s user amount now).isOk = true) ↔
        (if s.windowSeconds ≤ now - s.windowStart user then 0 else s.windowCount user)
            + amount ≤ s.maxPerWindow) ∧
    ((checkRateLimit s user amount now).isOk = true →
        (afterRateLimit s user amount now).windowStart user
            = (if s.windowSeconds ≤ now - s.windowStart user then now
               else s.windowStart user) ∧
        (afterRateLimit s user amount now).windowCount user
            = (if s.windowSeconds ≤ now - s.windowStart user then 0
               else s.windowCount user) + amount) ∧
    ((checkRateLimit s user amount now).isOk = false →
        checkRateLimit s user amount now = .error .rateLimit) ∧
    ((lockERC721Batch src0 5 20 [1] 7 84532 0).isOk = true ∧
     (lockERC721Batch src1 5 20 [2] 7 84532 0).isOk = true ∧
     (lockERC721Batch src2 5 20 [3] 7 84532 0).isOk = true ∧
     (lockERC721Batch src3 5 20 [4] 7 84532 0).isOk = true ∧
     (lockERC721Batch src4 5 20 [5] 7 84532 0).isOk = true ∧
     (lockERC721Batch src5 5 20 [6] 7 84532 0).isOk = true ∧
     (lockERC721Batch src6 5 20 [7] 7 84532 0).isOk = true ∧
     (lockERC721Batch src7 5 20 [8] 7 84532 0).isOk = true ∧
     (lockERC721Batch src8 5 20 [9] 7 84532 0).isOk = true ∧
     (lockERC721Batch src9 5 20 [10] 7 84532 0).isOk = true ∧
     errOf (lockERC721Batch src10 5 20 [11] 7 84532 0) = some .rateLimit ∧
     (lockERC721Batch src10 5 20 [11, 12, 13, 14, 15, 16, 17, 18, 19, 20]
        7 84532 3601).isOk = true) := by
  obtain ⟨h1, h2, h3⟩ := checkRateLimit_spec s user amount now
  by_cases hrs : s.windowStart user + s.windowSeconds ≤ now
  · have hrs' : s.windowSeconds ≤ now - s.windowStart user := by omega
    rw [if_pos hrs] at h1
    refine ⟨by rw [if_pos hrs']; exact h1, ?_, h2, by decide⟩
    intro hok
    obtain ⟨hcnt, hstart, _⟩ := h3 hok
    rw [if_pos hrs] at hcnt hstart
    rw [if_pos hrs', if_pos hrs']
    exact ⟨hstart, hcnt⟩
  · have hrs' : ¬ s.windowSeconds ≤ now - s.windowStart user := by omega
    rw [if_neg hrs] at h1
    refine ⟨by rw [if_neg hrs']; exact h1, ?_, h2, by decide⟩
    intro hok
    obtain ⟨hcnt, hstart, _⟩ := h3 hok
    rw [if_neg hrs] at hcnt hstart
    rw [if_neg hrs', if_neg hrs']
    exact ⟨hstart, hcnt⟩

/-- Witness for `rate_limiter_window`: the post-window size-10 admission. -/
theorem rate_limiter_window_witness : (checkRateLimit src10 5 10 3601).isOk = true :=
  (rate_limiter_window src10 5 10 3601 (by decide)).1.mpr (by decide)

/-- **C5**: two successive successful `lockERC721Batch` calls with identical inputs
produce distinct transferIds: the per-instance nonce is assigned at lock time and
strictly increases across successful calls, and the transferId is the deterministic
(injectively encoded, collision-free) hash of
`(sourceChain, destinationChain, assetContract, sender, recipient, tokenIds, nonce)`. -/
theorem successive_locks_distinct_ids (s : SourceState) (sender token : Addr)
    (ids : List Nat) (rcpt : Addr) (dest now now' : Nat)
    (h1 : (lockERC721Batch s sender token ids rcpt dest now).isOk = true)
    (h2 : (lockERC721Batch (afterLock s sender token ids rcpt dest now) sender token ids
            rcpt dest now').isOk = true) :
    (afterLock s sender token ids rcpt dest now).nonce = s.nonce + 1 ∧
    (afterLock (afterLock s sender token ids rcpt dest now) sender token ids rcpt dest
        now').nonce = s.nonce + 2 ∧
    (afterLock s sender token ids rcpt dest now).lastTransferId
        = some ⟨s.sourceChainId, dest, token, sender, rcpt, ids, s.nonce⟩ ∧
    (afterLock (afterLock s sender token ids rcpt dest now) sender token ids rcpt dest
        now').lastTransferId
        = some ⟨s.sourceChainId, dest, token, sender, rcpt, ids, s.nonce + 1⟩ ∧
    (afterLock s sender token ids rcpt dest now).lastTransferId
        ≠ (afterLock (afterLock s sender token ids rcpt dest now) sender token ids rcpt
            dest now').lastTransferId := by
  obtain ⟨ha1, hc1, ht1⟩ := lock_ok_spec s sender token ids rcpt dest now h1
  obtain ⟨ha2, hc2, ht2⟩ :=
    lock_ok_spec (afterLock s sender token ids rcpt dest now) sender token ids rcpt dest
      now' h2
  refine ⟨ha1, by rw [ha2, ha1], ht1, by rw [ht2, hc1, ha1], ?_⟩
  rw [ht1, ht2, hc1, ha1]
  intro hEq
  simp only [Option.some.injEq, TransferId.mk.injEq] at hEq
  exact absurd hEq.2.2.2.2.2.2 (by omega)

/-- Witness for `successive_locks_distinct_ids`: two verbatim-identical successful
locks from the bridge's own address produce different ids. -/
theorem successive_locks_distinct_ids_witness :
    (afterLock srcSelf 900 20 [1, 2] 7 84532 0).lastTransferId
      ≠ (afterLock (afterLock srcSelf 900 20 [1, 2] 7 84532 0) 900 20 [1, 2] 7 84532
          0).lastTransferId :=
  (successive_locks_distinct_ids srcSelf 900 20 [1, 2] 7 84532 0 0
    (by decide) (by decide)).2.2.2.2

/-- The demo source bridge, paused by its admin. -/
def srcPaused : SourceState := afterPauseSrc srcSelf 1

/-- A paused destination bridge. -/
def destPaused : DestState := afterPause demo2 1

/-- **C8 counterexample**: while the source coordinator is paused, the state-mutating
entry point `releaseERC721Batch` (which has no `whenNotPaused` gate) still succeeds
and reassigns token ownership, refuting the claim that every state-mutating entry
point fails without mutating state while paused. -/
theorem paused_release_still_mutates :
    srcPaused.paused = true ∧
    (releaseERC721Batch srcPaused 1 20 7 [5]).isOk = true ∧
    (exOk (releaseERC721Batch srcPaused 1 20 7 [5]) srcPaused).tokenOwner 20 5 = 7 ∧
    srcPaused.tokenOwner 20 5 = 900 := by
  refine ⟨by decide, by decide, by decide, by decide⟩

/-- **C8 (amended)**: while paused, the bridge-operation entry points
`lockERC721Batch` and `approveAndMint` revert with the pause error — mutating nothing,
by revert semantics — and pausing itself leaves escrow ownership, rate windows, the
nonce, approvals, wrapped-token state and the event logs untouched; admin entry points
(`releaseERC721Batch`, `setRateLimit`, `setRequiredApprovals`, role grants, `unpause`)
are not pause-gated. -/
theorem paused_blocks_bridge_operations (s : SourceState) (d : DestState)
    (hs : s.paused = true) (hd : d.paused = true) :
    (∀ sender token ids rcpt dest now,
        lockERC721Batch s sender token ids rcpt dest now = .error .enforcedPause) ∧
    (∀ sender tid rcpt ids,
        approveAndMint d sender tid rcpt ids = .error .enforcedPause) ∧
    (∀ s₀ sender, (afterPauseSrc s₀ sender).tokenOwner = s₀.tokenOwner ∧
        (afterPauseSrc s₀ sender).windowStart = s₀.windowStart ∧
        (afterPauseSrc s₀ sender).windowCount = s₀.windowCount ∧
        (afterPauseSrc s₀ sender).nonce = s₀.nonce ∧
        (afterPauseSrc s₀ sender).events = s₀.events) ∧
    (∀ d₀ sender, (afterPause d₀ sender).approvals = d₀.approvals ∧
        (afterPause d₀ sender).wrapped = d₀.wrapped ∧
        (afterPause d₀ sender).events = d₀.events) := by
  refine ⟨?_, ?_, ?_, ?_⟩
  · intro sender token ids rcpt dest now
    unfold lockERC721Batch
    simp [hs]
  · intro sender tid rcpt ids
    unfold approveAndMint
    simp [hd]
  · intro s₀ sender
    unfold afterPauseSrc pauseSource
    by_cases ha : s₀.admins sender = false
    · simp [ha, exOk]
    by_cases hp : s₀.paused = true
    · simp [ha, hp, exOk]
    simp [ha, hp, exOk]
  · intro d₀ sender
    obtain ⟨h1, _, _, _, h2, h3⟩ := pauseDest_spec d₀ sender
    exact ⟨h1, h2, h3⟩

/-- Witness for `paused_blocks_bridge_operations` at the paused demo states. -/
theorem paused_blocks_bridge_operations_witness :
    lockERC721Batch srcPaused 5 20 [1] 7 84532 0 = .error .enforcedPause :=
  (paused_blocks_bridge_operations srcPaused destPaused (by decide) (by decide)).1
    5 20 [1] 7 84532 0

/-- **C7 counterexample**: `initialize` performs no positivity check, so a deployment
initialized with `_requiredApprovals = 0` is a reachable state whose quorum threshold
is not positive, refuting "in every state reachable through initialization and admin
reconfiguration the quorum threshold satisfies requiredApprovals > 0". -/
theorem init_zero_quorum_reachable :
    DReachable (initDest 1 84532 0) (initDest 1 84532 0) ∧
    ¬ 0 < (initDest 1 84532 0).requiredApprovals :=
  ⟨DReachable.refl, by decide⟩

/-- **C7 (amended)**: `setRequiredApprovals` never accepts a zero threshold (an admin
caller gets the explicit `"Bridge: zero quorum"` revert), and every state reachable
from a deployment whose `initialize` received a positive threshold keeps
`requiredApprovals > 0`; `initialize` itself does not validate the value. -/
theorem required_approvals_positive (d : Addr) (cid r₀ : Nat) (hpos : 0 < r₀) :
    (∀ s sender, (setRequiredApprovals s sender 0).isOk = false) ∧
    (∀ s sender, s.admins sender = true →
        setRequiredApprovals s sender 0 = .error .zeroQuorum) ∧
    (∀ s, DReachable (initDest d cid r₀) s → 0 < s.requiredApprovals) := by
  refine ⟨?_, ?_, ?_⟩
  · intro s sender
    unfold setRequiredApprovals
    by_cases ha : s.admins sender = false
    · simp [ha, Except.isOk, Except.toBool]
    · simp [ha, Except.isOk, Except.toBool]
  · intro s sender ha
    unfold setRequiredApprovals
    simp [ha]
  · intro s hreach
    induction hreach with
    | refl => exact hpos
    | step hr hstep ih =>
      cases hstep with
      | approve sender tid rcpt ids h =>
        rw [(afterApprove_spec _ sender tid rcpt ids h).1]
        exact ih
      | setReq sender n h =>
        rename_i s'
        obtain ⟨hiff, hset, _⟩ := setReq_spec s' sender n 0
        rw [hset, if_pos (hiff.mp h)]
        exact Nat.pos_of_ne_zero (hiff.mp h).2
      | pause sender h =>
        rw [(pauseDest_spec _ sender).2.1]
        exact ih
      | unpause sender h =>
        rw [(unpauseDest_spec _ sender).2.1]
        exact ih
      | grant sender role account h =>
        rw [(grantRole_spec _ sender role account).2.1]
        exact ih

/-- Witness for `required_approvals_positive` at the demo deployment. -/
theorem required_approvals_positive_witness : 0 < demo4.requiredApprovals :=
  (required_approvals_positive 1 84532 2 (by decide)).2.2 demo4 demo4_reachable
